import Mathlib

/-!
Verification of the pricepilot frontend (`src/lib/api.ts`, `src/app/*.tsx`)
and a spec-modelled view of the backend Normalizer/Ranker, against the
natural-language specification.

JavaScript numbers carried by the API payloads are embedded as `Rat`
(every field the claims touch is used as an exact decimal), JS strings as
`String`, and the outcome of a `fetch` call as an explicit `HttpOutcome`
value: either a network failure (the promise rejects) or an HTTP response
with a status code and a body that may or may not parse as the expected
JSON shape.  A TypeScript function that can throw is embedded as a
function into `Except JsError _`.
-/

namespace PricePilot

/-- Embedding of the `ProductData` interface of `src/lib/api.ts` (lines 5-17).
Optional interface fields become `Option`. -/
structure ProductData where
  retailer : String
  product_title : String
  url : String
  price : Rat
  currency : String
  in_stock : String
  fetched_at : Nat
  original_price : Option Rat
  availability_text : Option String
  image_url : Option String
  description : Option String
deriving DecidableEq

/-- Embedding of the `SearchResponse` interface of `src/lib/api.ts` (lines 19-25). -/
structure SearchResponse where
  query : String
  results : List ProductData
  total_results : Nat
  execution_time : Rat
  channels_searched : List String
deriving DecidableEq

/-- Embedding of the `ChannelInfo` interface of `src/lib/api.ts` (lines 27-32). -/
structure ChannelInfo where
  domain : String
  name : String
  relevance_score : Rat
  search_results_count : Nat
deriving DecidableEq

/-- Outcome of one `fetch` call as observed by the caller: the promise
rejects (network failure), or it resolves to a response with an HTTP
status code and a body; `body = none` means the body does not parse as
the expected JSON shape (`response.json()` would throw). -/
inductive HttpOutcome (β : Type) where
  | networkFailure
  | response (status : Nat) (body : Option β)
deriving DecidableEq

/-- The `Response.ok` flag of the Fetch API: status in the range 200-299. -/
def statusOk (s : Nat) : Bool :=
  decide (200 ≤ s) && decide (s < 300)

/-- The exceptions the api.ts methods can raise to their caller. -/
inductive JsError where
  | network
  | httpStatus (status : Nat)
  | malformedBody
deriving DecidableEq

namespace AICrawlerAPI

/-- Embedding of `AICrawlerAPI.searchProducts` (src/lib/api.ts lines 41-62):
on a rejected fetch the catch block logs and rethrows; on `!response.ok` it
throws `HTTP error! status: ...` (also rethrown by the catch block); on an
ok status it returns `response.json()`, which throws on a malformed body;
only a 2xx response with a well-formed body produces a return value. -/
def searchProducts (o : HttpOutcome SearchResponse) : Except JsError SearchResponse :=
  match o with
  | .networkFailure => .error .network
  | .response s body =>
    if statusOk s then
      match body with
      | some r => .ok r
      | none => .error .malformedBody
    else
      .error (.httpStatus s)

/-- Embedding of `AICrawlerAPI.getChannels` (src/lib/api.ts lines 64-82),
with the same throw/rethrow structure as `searchProducts`. -/
def getChannels (o : HttpOutcome (List ChannelInfo)) : Except JsError (List ChannelInfo) :=
  match o with
  | .networkFailure => .error .network
  | .response s body =>
    if statusOk s then
      match body with
      | some cs => .ok cs
      | none => .error .malformedBody
    else
      .error (.httpStatus s)

/-- Embedding of `AICrawlerAPI.healthCheck` (src/lib/api.ts lines 84-92):
returns `response.ok`, and `false` (not a thrown error) when the fetch
rejects; the body is never inspected. -/
def healthCheck (o : HttpOutcome Unit) : Bool :=
  match o with
  | .networkFailure => false
  | .response s _ => statusOk s

end AICrawlerAPI

/-- The five fields of a `SearchResponse`, as a tuple. -/
def SearchResponse.fields (r : SearchResponse) :
    String × List ProductData × Nat × Rat × List String :=
  (r.query, r.results, r.total_results, r.execution_time, r.channels_searched)

/-- Modelled from the spec: design note §9 demands "a plain synchronous
response value (`SearchResponse`) plus an optional partial-result flag".
A partial-result flag would be an observation of a response that can
differ between two responses agreeing on the five declared fields. -/
def HasPartialFlag : Prop :=
  ∃ flag : SearchResponse → Bool, ∃ r₁ r₂ : SearchResponse,
    r₁.fields = r₂.fields ∧ flag r₁ ≠ flag r₂

/-- Error messages as the pages observe them (`err.message`): the message of
the `Error` thrown by api.ts for a bad status, and the host messages of a
rejected fetch / failed JSON parse (exact host texts are irrelevant to the
claims; only which branch is taken matters). -/
def JsError.message : JsError → String
  | .network => "Failed to fetch"
  | .httpStatus s => "HTTP error! status: " ++ toString s
  | .malformedBody => "Unexpected end of JSON input"

namespace ComparePage

/-- Embedding of `getMockProducts` of `src/app/compare/page.tsx` (lines 47-78);
`Date.now()` is passed in as `now`. -/
def getMockProducts (query : String) (now : Nat) : List ProductData :=
  [⟨"Amazon", "Search result for: \"" ++ query ++ "\"",
      "https://amazon.com/example-product", (45.99 : Rat), "USD", "in_stock", now,
      none, none, some ("https://via.placeholder.com/300x300?text=Product+Image"), none⟩,
   ⟨"Walmart", "Search result for: \"" ++ query ++ "\"",
      "https://walmart.com/example-product", (48.50 : Rat), "USD", "in_stock", now,
      none, none, some ("https://via.placeholder.com/300x300?text=Product+Image"), none⟩,
   ⟨"Target", "Search result for: \"" ++ query ++ "\"",
      "https://target.com/example-product", (49.00 : Rat), "USD", "in_stock", now,
      none, none, some ("https://via.placeholder.com/300x300?text=Product+Image"), none⟩]

/-- React state of the compare page after its `searchProducts` handler ran. -/
structure State where
  error : Option String
  searchResults : Option SearchResponse
  products : List ProductData
deriving DecidableEq

/-- Embedding of the `searchProducts` handler of `src/app/compare/page.tsx`
(lines 23-45): if `healthCheck` reports unhealthy it throws, the catch block
records the message and falls back to `getMockProducts`; if the API call
throws, the same catch path runs; on success the response and its results
are stored. -/
def run (query : String) (now : Nat) (health : HttpOutcome Unit)
    (search : HttpOutcome SearchResponse) : State :=
  if AICrawlerAPI.healthCheck health then
    match AICrawlerAPI.searchProducts search with
    | .ok r => ⟨none, some r, r.results⟩
    | .error e => ⟨some e.message, none, getMockProducts query now⟩
  else
    ⟨some ("Backend service is not available"), none, getMockProducts query now⟩

/-- Embedding of the stock label rendered by `src/app/compare/page.tsx`
(lines 170-172): `product.in_stock === 'in_stock' ? 'In Stock' : 'Out of Stock'`. -/
def stockLabel (s : String) : String :=
  if s = "in_stock" then "In Stock" else "Out of Stock"

end ComparePage

namespace ConfirmPage

/-- Embedding of `getMockProduct` of `src/app/confirm/page.tsx` (lines 54-63). -/
def getMockProduct (query : String) (now : Nat) : ProductData :=
  ⟨"Preview", "Search result for: \"" ++ query ++ "\"",
    "https://via.placeholder.com/300x300?text=Product+Preview", (49.99 : Rat), "USD",
    "in_stock", now, none, none,
    some ("https://via.placeholder.com/300x300?text=Product+Preview"), none⟩

/-- React state of the confirm page after its `fetchPreviewData` handler ran. -/
structure State where
  error : Option String
  preview : Option ProductData
deriving DecidableEq

/-- Embedding of the `fetchPreviewData` handler of `src/app/confirm/page.tsx`
(lines 25-52): unhealthy backend throws into the catch block which falls back
to the mock preview; a throwing API call does the same; a successful call
stores the first result, or the mock preview when the result list is empty. -/
def run (query : String) (now : Nat) (health : HttpOutcome Unit)
    (search : HttpOutcome SearchResponse) : State :=
  if AICrawlerAPI.healthCheck health then
    match AICrawlerAPI.searchProducts search with
    | .ok r =>
      match r.results with
      | p :: _ => ⟨none, some p⟩
      | [] => ⟨none, some (getMockProduct query now)⟩
    | .error e => ⟨some e.message, some (getMockProduct query now)⟩
  else
    ⟨some ("Backend service is not available"), some (getMockProduct query now)⟩

/-- Embedding of the stock label rendered by `src/app/confirm/page.tsx`
(lines 124-126): `previewProduct.in_stock === 'in_stock' ? 'In Stock' : 'Out of Stock'`. -/
def stockLabel (s : String) : String :=
  if s = "in_stock" then "In Stock" else "Out of Stock"

end ConfirmPage

/-- Whitespace for JS `String.prototype.trim`: the ECMAScript WhiteSpace and
LineTerminator code points. -/
def jsWhitespace (c : Char) : Bool :=
  c ∈ [Char.ofNat 0x9, Char.ofNat 0xA, Char.ofNat 0xB, Char.ofNat 0xC,
       Char.ofNat 0xD, Char.ofNat 0x20, Char.ofNat 0xA0, Char.ofNat 0x1680,
       Char.ofNat 0x2000, Char.ofNat 0x2001, Char.ofNat 0x2002, Char.ofNat 0x2003,
       Char.ofNat 0x2004, Char.ofNat 0x2005, Char.ofNat 0x2006, Char.ofNat 0x2007,
       Char.ofNat 0x2008, Char.ofNat 0x2009, Char.ofNat 0x200A, Char.ofNat 0x2028,
       Char.ofNat 0x2029, Char.ofNat 0x202F, Char.ofNat 0x205F, Char.ofNat 0x3000,
       Char.ofNat 0xFEFF]

/-- `trim` on the character list: drop leading and trailing whitespace. -/
def trimList (l : List Char) : List Char :=
  ((l.dropWhile jsWhitespace).reverse.dropWhile jsWhitespace).reverse

/-- Embedding of JS `input.trim()`. -/
def jsTrim (s : String) : String :=
  String.mk (trimList s.data)

/-- Uppercase hexadecimal digit, as used by `encodeURIComponent` escapes. -/
def hexDigitChar (x : Nat) : Char :=
  if x % 16 < 10 then Char.ofNat (48 + x % 16) else Char.ofNat (55 + x % 16)

/-- UTF-8 bytes of a Unicode scalar value, for percent-encoding. -/
def utf8Bytes (n : Nat) : List Nat :=
  if n < 0x80 then [n]
  else if n < 0x800 then [0xC0 + n / 0x40, 0x80 + n % 0x40]
  else if n < 0x10000 then
    [0xE0 + n / 0x1000, 0x80 + (n / 0x40) % 0x40, 0x80 + n % 0x40]
  else
    [0xF0 + n / 0x40000, 0x80 + (n / 0x1000) % 0x40, 0x80 + (n / 0x40) % 0x40,
     0x80 + n % 0x40]

/-- The characters `encodeURIComponent` leaves unescaped:
`A-Z a-z 0-9 - _ . ! ~ * ' ( )`. -/
def uriUnreserved (c : Char) : Bool :=
  c.isAlpha || c.isDigit ||
    c ∈ ['-', '_', '.', '!', '~', '*', Char.ofNat 39, '(', ')']

/-- One character of `encodeURIComponent` output: kept verbatim when
unreserved, otherwise percent-encoded UTF-8 bytes with uppercase hex. -/
def encodeChar (c : Char) : List Char :=
  if uriUnreserved c then [c]
  else (utf8Bytes c.toNat).flatMap
    (fun b => ['%', hexDigitChar (b / 16), hexDigitChar (b % 16)])

/-- Embedding of JS `encodeURIComponent` on well-formed strings. -/
def encodeURIComponent (s : String) : String :=
  String.mk (s.data.flatMap encodeChar)

/-- Decimal digits of `n`, most significant first (fuel-driven so that the
definition is structural; the fuel `n + 1` always suffices). -/
def natDigitsAux : Nat → Nat → List Char
  | 0, _ => []
  | fuel + 1, n =>
    if n < 10 then [Nat.digitChar n]
    else natDigitsAux fuel (n / 10) ++ [Nat.digitChar (n % 10)]

/-- Embedding of JS number-to-string conversion for nonnegative integers,
as used by the template literal in the request URL. -/
def natToString (n : Nat) : String :=
  String.mk (natDigitsAux (n + 1) n)

/-- The constant `API_BASE_URL` of `src/lib/api.ts` (line 3). -/
def API_BASE_URL : String := "http://localhost:8000"

/-- The request URL built by `AICrawlerAPI.searchProducts`
(src/lib/api.ts line 44):
`${baseURL}/search?query=${encodeURIComponent(query)}&max_results=${maxResults}`. -/
def searchProductsUrl (baseURL query : String) (maxResults : Nat) : String :=
  baseURL ++ "/search?query=" ++ encodeURIComponent query ++ "&max_results=" ++
    natToString maxResults

/-- Embedding of `handleSearch` of the landing page (src/unnamed/part_001
lines 10-14): whitespace-only input returns without navigating; otherwise the
router is pushed to `/confirm?q=${encodeURIComponent(input.trim())}`.
`none` means no navigation happened. -/
def handleSearch (input : String) : Option String :=
  if jsTrim input = "" then none
  else some ("/confirm?q=" ++ encodeURIComponent (jsTrim input))

/-- Split a character list on a separator character; `n` separators yield
`n + 1` (possibly empty) chunks. -/
def splitOnChar (sep : Char) : List Char → List (List Char)
  | [] => [[]]
  | c :: rest =>
    if c = sep then [] :: splitOnChar sep rest
    else
      match splitOnChar sep rest with
      | [] => [[c]]
      | h :: t => (c :: h) :: t

/-- Read one `key=value` chunk of a query string. -/
def kvParse (l : List Char) : String × String :=
  match splitOnChar '=' l with
  | k :: v :: _ => (String.mk k, String.mk v)
  | [k] => (String.mk k, "")
  | [] => ("", "")

/-- The key/value parameters carried by a request URL: the part after the
first `?`, split on `&`, each chunk read as `key=value`. -/
def urlParams (url : String) : List (String × String) :=
  (splitOnChar '&' (((splitOnChar '?' url.data).drop 1).headD [])).map kvParse

/-- Modelled from the spec: the options record of the §6 primary entry point
`search(query, options: {locale?, maxResults?, includeOutOfStock?})`. -/
structure SpecSearchOptions where
  locale : Option String
  maxResults : Option Nat
  includeOutOfStock : Option Bool
deriving DecidableEq

/-- Modelled from the spec: the request parameters a client honouring the §6
signature would transmit — one parameter per supplied option (names as in
the backend documentation: `locale`, `max_results`, `include_out_of_stock`). -/
def specSearchParams (query : String) (opts : SpecSearchOptions) :
    List (String × String) :=
  [("query", encodeURIComponent query)]
    ++ (match opts.locale with
        | some l => [("locale", l)]
        | none => [])
    ++ (match opts.maxResults with
        | some n => [("max_results", natToString n)]
        | none => [])
    ++ (match opts.includeOutOfStock with
        | some b => [("include_out_of_stock", if b then "true" else "false")]
        | none => [])

namespace Normalizer

/-- Modelled from the spec: the Normalizer/Ranker (§4.6) of the backend
pipeline is not part of this repository's sources (only its documentation
is), so its record type is modelled from §3: a product record whose fields
an extractor may leave absent (`Option`), carried through normalisation in
place.  `confidence` is the whitelist confidence of the source domain used
as the final tie-breaker. -/
structure ProductRecord where
  retailer : String
  title : String
  url : String
  price : Option Rat
  currency : Option String
  stock : String
  fetchedAt : Nat
  confidence : Rat
  imageUrl : Option String
  description : Option String
deriving DecidableEq

/-- Lower-casing of a string, for retailer normalisation and the stock
lexicon. -/
def lowerStr (s : String) : String :=
  String.mk (s.data.map Char.toLower)

/-- Modelled from the spec: the ISO-4217 codes the pipeline recognises. -/
def knownCurrencies : List String :=
  ["USD", "EUR", "GBP", "JPY", "CAD", "AUD"]

/-- Modelled from the spec: conversion rates into the reporting currency
(USD); §4.6 — a record whose currency has no rate is passed through
unconverted. -/
def conversionRate (c : String) : Option Rat :=
  if c = "USD" then some 1
  else if c = "EUR" then some ((27 : Rat) / 25)
  else if c = "GBP" then some ((5 : Rat) / 4)
  else if c = "CAD" then some ((3 : Rat) / 4)
  else none

/-- Modelled from the spec: §4.5 stock lexicon, in-stock phrases. -/
def inStockTexts : List String :=
  ["in_stock", "in stock", "add to cart", "pickup today"]

/-- Modelled from the spec: §4.5 stock lexicon, out-of-stock phrases. -/
def outOfStockTexts : List String :=
  ["out_of_stock", "sold out", "unavailable", "backordered"]

/-- Modelled from the spec: map free stock text through the fixed lexicon;
anything unmatched becomes `unknown`. -/
def mapStock (s : String) : String :=
  if lowerStr s ∈ inStockTexts then "in_stock"
  else if lowerStr s ∈ outOfStockTexts then "out_of_stock"
  else "unknown"

/-- Modelled from the spec: §4.6/§3 normalisation of one record — a record
without a present, nonnegative price or without a recognised ISO currency
code is dropped (never emitted with defaults); a record whose currency has
a conversion rate is converted into the reporting currency; one without a
rate is passed through with its original code; stock text goes through the
lexicon. -/
def normalizeRecord (r : ProductRecord) : Option ProductRecord :=
  match r.price, r.currency with
  | some p, some c =>
    if 0 ≤ p ∧ c ∈ knownCurrencies then
      match conversionRate c with
      | some rate =>
        some ⟨r.retailer, r.title, r.url, some (p * rate), some ("USD"),
          mapStock r.stock, r.fetchedAt, r.confidence, r.imageUrl, r.description⟩
      | none =>
        some ⟨r.retailer, r.title, r.url, some p, some c,
          mapStock r.stock, r.fetchedAt, r.confidence, r.imageUrl, r.description⟩
    else none
  | _, _ => none

/-- The price of a record, defaulting to `0` (records reaching deduplication
always carry one). -/
def pval (r : ProductRecord) : Rat :=
  r.price.getD 0

/-- Title tokens: the lower-cased title split on spaces, empty chunks
dropped. -/
def titleTokens (s : String) : List (List Char) :=
  (splitOnChar ' ' ((lowerStr s).data)).filter (fun w => !w.isEmpty)

/-- Modelled from the spec: textual title similarity above a fixed threshold
`θ` — token-overlap ratio of the two titles' token sets is at least `θ`
(stated multiplicatively to avoid division). -/
def titleSimilar (θ : Rat) (a b : String) : Bool :=
  decide (θ * (((titleTokens a ++ titleTokens b).dedup.length : Nat) : Rat) ≤
    (((titleTokens a).dedup.filter (fun w => w ∈ titleTokens b)).length : Rat))

/-- Modelled from the spec: price within a small relative tolerance `τ`. -/
def priceClose (τ : Rat) (a b : ProductRecord) : Bool :=
  decide (|pval a - pval b| ≤ τ * max (pval a) (pval b))

/-- Modelled from the spec: §4.6 duplicate criterion — same normalised
retailer, title similarity above the threshold, prices within the relative
tolerance. -/
def isDup (θ τ : Rat) (a b : ProductRecord) : Bool :=
  decide (lowerStr a.retailer = lowerStr b.retailer) &&
    titleSimilar θ a.title b.title && priceClose τ a b

/-- The symmetric closure of the duplicate criterion, which the clustering
uses. -/
def dupMatch (θ τ : Rat) (a b : ProductRecord) : Bool :=
  isDup θ τ a b || isDup θ τ b a

/-- Add one record to the running clusters: the record is merged with every
cluster holding a matching record (keeping clusters pairwise non-matching),
or starts a new cluster. -/
def addRecord (θ τ : Rat) (clusters : List (List ProductRecord))
    (r : ProductRecord) : List (List ProductRecord) :=
  if (clusters.filter (fun c => c.any (dupMatch θ τ r))).isEmpty then
    clusters ++ [[r]]
  else
    clusters.filter (fun c => !c.any (dupMatch θ τ r)) ++
      [r :: (clusters.filter (fun c => c.any (dupMatch θ τ r))).flatten]

/-- Modelled from the spec: cluster records by the duplicate criterion. -/
def clusterize (θ τ : Rat) (l : List ProductRecord) :
    List (List ProductRecord) :=
  l.foldl (addRecord θ τ) []

/-- Completeness of a record: how many of the optional presentation fields
are present. -/
def completeness (r : ProductRecord) : Nat :=
  (if r.imageUrl.isSome then 1 else 0) + (if r.description.isSome then 1 else 0)

/-- Modelled from the spec: of two records, keep the more complete one, the
more recently fetched among equally complete ones, the earlier one on a
full tie. -/
def better (a b : ProductRecord) : ProductRecord :=
  if completeness a < completeness b ∨
      (completeness a = completeness b ∧ a.fetchedAt < b.fetchedAt) then b
  else a

/-- The representative of a cluster: its best record. -/
def bestOf : List ProductRecord → Option ProductRecord
  | [] => none
  | h :: t => some (t.foldl better h)

/-- Modelled from the spec: deduplication — cluster, then keep one
representative per cluster. -/
def dedupe (θ τ : Rat) (l : List ProductRecord) : List ProductRecord :=
  (clusterize θ τ l).filterMap bestOf

/-- Rank of the stock status for ordering: in-stock records come first at
equal price. -/
def stockRank (r : ProductRecord) : Nat :=
  if r.stock = "in_stock" then 0 else 1

/-- The sort key of §4.6's final ordering: ascending price, then stock
status, then descending whitelist confidence. -/
def rankKey (r : ProductRecord) : Lex (Rat × Lex (Nat × Rat)) :=
  toLex (pval r, toLex (stockRank r, -r.confidence))

/-- The ranking order on records. -/
def rankLe (a b : ProductRecord) : Prop :=
  rankKey a ≤ rankKey b

instance : DecidableRel rankLe := fun a b =>
  inferInstanceAs (Decidable (rankKey a ≤ rankKey b))

instance : IsTotal ProductRecord rankLe :=
  ⟨fun a b => le_total (rankKey a) (rankKey b)⟩

instance : IsTrans ProductRecord rankLe :=
  ⟨fun _ _ _ h₁ h₂ => le_trans h₁ h₂⟩

/-- Modelled from the spec: `process([RawProductRecord]) -> [ProductResult]`
(§4.6) — normalise each record (dropping the unusable ones), deduplicate,
sort by the final ordering, truncate to the caller's requested maximum. -/
def process (θ τ : Rat) (k : Nat) (l : List ProductRecord) :
    List ProductRecord :=
  (((l.filterMap normalizeRecord) |> dedupe θ τ).insertionSort rankLe).take k

/-- A concrete raw record for evaluating the model on an explicit input:
a JPY price (a known currency without a conversion rate, so it is passed
through unconverted) and free stock text. -/
def sampleRaw : ProductRecord :=
  ⟨"BicCamera", "MSI GeForce RTX 4070 Ti", "https://www.biccamera.com/x",
    some ((124800 : Rat)), some ("JPY"), "In Stock", 100, 1, none, none⟩

/-- The normalised form of `sampleRaw`: passed through with its original
currency code, stock text mapped through the lexicon. -/
def sampleOut : ProductRecord :=
  ⟨"BicCamera", "MSI GeForce RTX 4070 Ti", "https://www.biccamera.com/x",
    some ((124800 : Rat)), some ("JPY"), "in_stock", 100, 1, none, none⟩

end Normalizer

theorem SearchResponse.fields_inj {r₁ r₂ : SearchResponse}
    (h : r₁.fields = r₂.fields) : r₁ = r₂ := by
  cases r₁
  cases r₂
  simp only [SearchResponse.fields, Prod.mk.injEq] at h
  obtain ⟨h1, h2, h3, h4, h5⟩ := h
  subst h1 h2 h3 h4 h5
  rfl

/-- Claim C1 counterexample: `AICrawlerAPI.searchProducts` does throw to its
caller — at the concrete backend outcome "the fetch promise rejects", the
call raises the rethrown network error instead of returning any response
object. -/
theorem c1_searchProducts_throws_on_network_failure :
    AICrawlerAPI.searchProducts HttpOutcome.networkFailure =
        Except.error JsError.network ∧
      ¬ ∃ r, AICrawlerAPI.searchProducts HttpOutcome.networkFailure =
        Except.ok r := by
  refine ⟨rfl, ?_⟩
  rintro ⟨r, h⟩
  simp [AICrawlerAPI.searchProducts] at h

/-- Claim C1 amended: `AICrawlerAPI.searchProducts` returns a response to its
caller exactly when the backend outcome is a 2xx response with a well-formed
body; for every other backend outcome (network failure, non-2xx status,
malformed body) it throws — its catch block logs and rethrows, and the
page-level callers are the ones converting those exceptions into fallback
data. -/
theorem c1_searchProducts_ok_iff (o : HttpOutcome SearchResponse) :
    (∃ r, AICrawlerAPI.searchProducts o = Except.ok r) ↔
      ∃ s r, o = HttpOutcome.response s (some r) ∧ statusOk s = true := by
  cases o with
  | networkFailure => simp [AICrawlerAPI.searchProducts]
  | response s body =>
    by_cases hs : statusOk s
    · cases body with
      | none => simp [AICrawlerAPI.searchProducts, hs]
      | some r => simp [AICrawlerAPI.searchProducts, hs]
    · cases body with
      | none => simp [AICrawlerAPI.searchProducts, hs]
      | some r => simp [AICrawlerAPI.searchProducts, hs]

/-- Claim C2 counterexample: the `SearchResponse` returned at the core
boundary carries no partial-result flag — no boolean observation of a
response can distinguish two responses that agree on the five declared
fields, so nothing in the value distinguishes partial from complete
results. -/
theorem c2_no_partial_flag : ¬ HasPartialFlag := by
  rintro ⟨flag, r₁, r₂, hf, hne⟩
  exact hne (congrArg flag (SearchResponse.fields_inj hf))

/-- Claim C2 amended: the synchronous response value returned at the core
boundary consists of exactly the fields `query`, `results`, `total_results`,
`execution_time` and `channels_searched`; it is fully determined by them
and carries no partial-result flag. -/
theorem c2_response_determined_by_fields (r₁ r₂ : SearchResponse)
    (h : r₁.fields = r₂.fields) : r₁ = r₂ :=
  SearchResponse.fields_inj h

/-- Witness for C2 amended: two concretely built responses with equal fields
are equal. -/
theorem c2_response_determined_by_fields_witness :
    SearchResponse.mk ("q") [] 0 1 [] = SearchResponse.mk ("q" ++ "") [] 0 1 [] :=
  c2_response_determined_by_fields _ _ (by decide)

/-- Claim C5: when the pipeline is unavailable — the health check reports
false or the search call throws — the compare page populates its product
list with the locally defined mock products and the confirm page displays
the locally defined mock preview product. -/
theorem c5_fallback_to_mock_data (q : String) (now : Nat)
    (ho : HttpOutcome Unit) (so : HttpOutcome SearchResponse)
    (h : AICrawlerAPI.healthCheck ho = false ∨
      ∃ e, AICrawlerAPI.searchProducts so = Except.error e) :
    (ComparePage.run q now ho so).products = ComparePage.getMockProducts q now ∧
      (ConfirmPage.run q now ho so).preview =
        some (ConfirmPage.getMockProduct q now) := by
  rcases h with h | ⟨e, h⟩
  · simp [ComparePage.run, ConfirmPage.run, h]
  · by_cases hh : AICrawlerAPI.healthCheck ho
    · simp [ComparePage.run, ConfirmPage.run, hh, h]
    · simp [ComparePage.run, ConfirmPage.run, hh]

/-- Witness for C5: with the backend unreachable (both fetches reject), the
compare page state holds the three mock products and the confirm page state
holds the mock preview. -/
theorem c5_fallback_to_mock_data_witness :
    (ComparePage.run ("iPhone 15") 0 HttpOutcome.networkFailure
        HttpOutcome.networkFailure).products =
        ComparePage.getMockProducts ("iPhone 15") 0 ∧
      (ConfirmPage.run ("iPhone 15") 0 HttpOutcome.networkFailure
        HttpOutcome.networkFailure).preview =
        some (ConfirmPage.getMockProduct ("iPhone 15") 0) :=
  c5_fallback_to_mock_data _ _ _ _ (Or.inl rfl)

/-- Claim C6: a `ChannelInfo` consists of exactly the fields `domain`,
`name`, `relevance_score` and `search_results_count` (every record is the
tuple of those four projections); `getChannels` yields such records exactly
for a 2xx well-formed body; and `healthCheck` always returns a boolean. -/
theorem c6_channels_and_health_shapes :
    (∀ c : ChannelInfo,
        c = ChannelInfo.mk c.domain c.name c.relevance_score
          c.search_results_count) ∧
      (∀ o : HttpOutcome (List ChannelInfo),
        (∃ cs, AICrawlerAPI.getChannels o = Except.ok cs) ↔
          ∃ s cs, o = HttpOutcome.response s (some cs) ∧ statusOk s = true) ∧
      (∀ o : HttpOutcome Unit,
        AICrawlerAPI.healthCheck o = true ∨ AICrawlerAPI.healthCheck o = false) := by
  refine ⟨fun c => by cases c; rfl, fun o => ?_, fun o => ?_⟩
  · cases o with
    | networkFailure => simp [AICrawlerAPI.getChannels]
    | response s body =>
      by_cases hs : statusOk s
      · cases body with
        | none => simp [AICrawlerAPI.getChannels, hs]
        | some cs => simp [AICrawlerAPI.getChannels, hs]
      · cases body with
        | none => simp [AICrawlerAPI.getChannels, hs]
        | some cs => simp [AICrawlerAPI.getChannels, hs]
  · cases AICrawlerAPI.healthCheck o
    · exact Or.inr rfl
    · exact Or.inl rfl

/-- Claim C8: `healthCheck` is total over its failure modes — it returns
`true` exactly when the underlying call resolved to a response with an ok
(2xx) status, and `false` (never a thrown exception) for every other
outcome, including a rejected fetch. -/
theorem c8_healthCheck_total (o : HttpOutcome Unit) :
    AICrawlerAPI.healthCheck o = true ↔
      ∃ s b, o = HttpOutcome.response s b ∧ statusOk s = true := by
  cases o with
  | networkFailure => simp [AICrawlerAPI.healthCheck]
  | response s b => simp [AICrawlerAPI.healthCheck]

/-- Claim C10: both the compare page and the confirm page render the label
`Out of Stock` for every `in_stock` value other than exactly `in_stock`
(including the spec's third value `unknown`), and render `In Stock` only
for the exact value `in_stock`. -/
theorem c10_stock_label_collapse (s : String) :
    (s ≠ "in_stock" →
        ComparePage.stockLabel s = "Out of Stock" ∧
          ConfirmPage.stockLabel s = "Out of Stock") ∧
      (ComparePage.stockLabel s = "In Stock" ↔ s = "in_stock") ∧
      (ConfirmPage.stockLabel s = "In Stock" ↔ s = "in_stock") := by
  refine ⟨fun h => ?_, ?_, ?_⟩ <;>
    by_cases h' : s = "in_stock" <;>
      simp_all [ComparePage.stockLabel, ConfirmPage.stockLabel]

/-- Witness for C10: the spec's third stock value `unknown` is rendered as
`Out of Stock` on both pages. -/
theorem c10_stock_label_collapse_witness :
    ComparePage.stockLabel ("unknown") = "Out of Stock" ∧
      ConfirmPage.stockLabel ("unknown") = "Out of Stock" :=
  (c10_stock_label_collapse ("unknown")).1 (by decide)

theorem trimList_eq_nil_iff {l : List Char} :
    trimList l = [] ↔ ∀ c ∈ l, jsWhitespace c = true := by
  unfold trimList
  rw [List.reverse_eq_nil_iff, List.dropWhile_eq_nil_iff]
  constructor
  · intro h c hc
    rcases List.mem_append.mp
        ((List.takeWhile_append_dropWhile (p := jsWhitespace) (l := l)) ▸ hc) with
      hc' | hc'
    · exact List.mem_takeWhile_imp hc'
    · exact h _ (List.mem_reverse.mpr hc')
  · intro h c hc
    exact h c ((List.dropWhile_sublist jsWhitespace).subset (List.mem_reverse.mp hc))

theorem jsTrim_eq_empty_iff (s : String) :
    jsTrim s = "" ↔ ∀ c ∈ s.data, jsWhitespace c = true := by
  unfold jsTrim
  rw [String.ext_iff]
  exact trimList_eq_nil_iff

/-- Claim C9: submitting the landing-page search form with a
whitespace-only input (the empty string included) performs no navigation,
while any input with a non-whitespace character navigates to the confirm
route with `q` set to the URL-encoding of the trimmed input. -/
theorem c9_handleSearch_navigation (input : String) :
    ((∀ c ∈ input.data, jsWhitespace c = true) → handleSearch input = none) ∧
      ((∃ c ∈ input.data, jsWhitespace c = false) →
        handleSearch input =
          some ("/confirm?q=" ++ encodeURIComponent (jsTrim input))) := by
  constructor
  · intro h
    unfold handleSearch
    rw [if_pos ((jsTrim_eq_empty_iff input).mpr h)]
  · rintro ⟨c, hc, hw⟩
    unfold handleSearch
    rw [if_neg (fun he => by
      rw [(jsTrim_eq_empty_iff input).mp he c hc] at hw
      exact Bool.noConfusion hw)]

/-- Witness for C9: a whitespace-only input does not navigate; the input
`" iPhone 15 "` navigates to `/confirm?q=iPhone%2015`. -/
theorem c9_handleSearch_navigation_witness :
    handleSearch ("  ") = none ∧
      handleSearch (" iPhone 15 ") = some ("/confirm?q=iPhone%2015") := by
  constructor
  · exact (c9_handleSearch_navigation ("  ")).1 (by decide)
  · rw [(c9_handleSearch_navigation (" iPhone 15 ")).2 ⟨'i', by decide, by decide⟩]
    decide

theorem splitOnChar_of_not_mem {sep : Char} {l : List Char} (h : sep ∉ l) :
    splitOnChar sep l = [l] := by
  induction l with
  | nil => rfl
  | cons c rest ih =>
    simp only [List.mem_cons, not_or] at h
    have hc : ¬ c = sep := fun e => h.1 (Eq.symm e)
    simp only [splitOnChar, if_neg hc, ih h.2]

theorem splitOnChar_append {sep : Char} {l₁ l₂ : List Char} (h : sep ∉ l₁) :
    splitOnChar sep (l₁ ++ sep :: l₂) = l₁ :: splitOnChar sep l₂ := by
  induction l₁ with
  | nil => simp [splitOnChar]
  | cons c rest ih =>
    simp only [List.mem_cons, not_or] at h
    have hc : ¬ c = sep := fun e => h.1 (Eq.symm e)
    simp only [List.cons_append, splitOnChar, if_neg hc, List.append_eq, ih h.2]

theorem kvParse_eq {K V : List Char} (hK : '=' ∉ K) (hV : '=' ∉ V) :
    kvParse (K ++ '=' :: V) = (String.mk K, String.mk V) := by
  unfold kvParse
  rw [splitOnChar_append hK, splitOnChar_of_not_mem hV]

theorem hexDigitChar_sep (x : Nat) :
    hexDigitChar x ≠ '?' ∧ hexDigitChar x ≠ '&' ∧ hexDigitChar x ≠ '=' := by
  have hx : x % 16 < 16 := Nat.mod_lt _ (by norm_num)
  have h : ∀ y, y < 16 →
      (if y < 10 then Char.ofNat (48 + y) else Char.ofNat (55 + y)) ≠ '?' ∧
        (if y < 10 then Char.ofNat (48 + y) else Char.ofNat (55 + y)) ≠ '&' ∧
        (if y < 10 then Char.ofNat (48 + y) else Char.ofNat (55 + y)) ≠ '=' := by
    decide
  exact h (x % 16) hx

theorem encodeChar_sep {c d : Char} (h : d ∈ encodeChar c) :
    d ≠ '?' ∧ d ≠ '&' ∧ d ≠ '=' := by
  unfold encodeChar at h
  by_cases u : uriUnreserved c
  · rw [if_pos u] at h
    simp only [List.mem_singleton] at h
    subst h
    refine ⟨fun e => ?_, fun e => ?_, fun e => ?_⟩ <;>
      (subst e; exact absurd u (by decide))
  · rw [if_neg u] at h
    simp only [List.mem_flatMap, List.mem_cons, List.mem_singleton] at h
    obtain ⟨b, -, hd | hd | hd | hd⟩ := h
    · subst hd; decide
    · subst hd; exact hexDigitChar_sep _
    · subst hd; exact hexDigitChar_sep _
    · cases hd

theorem natDigitsAux_sep {fuel n : Nat} {d : Char} (h : d ∈ natDigitsAux fuel n) :
    d ≠ '?' ∧ d ≠ '&' ∧ d ≠ '=' := by
  induction fuel generalizing n with
  | zero => cases h
  | succ fuel ih =>
    unfold natDigitsAux at h
    have hdig : ∀ m, m < 10 →
        Nat.digitChar m ≠ '?' ∧ Nat.digitChar m ≠ '&' ∧ Nat.digitChar m ≠ '=' := by
      decide
    by_cases hn : n < 10
    · rw [if_pos hn] at h
      simp only [List.mem_singleton] at h
      subst h
      exact hdig n hn
    · rw [if_neg hn] at h
      rcases List.mem_append.mp h with h' | h'
      · exact ih h'
      · simp only [List.mem_singleton] at h'
        subst h'
        exact hdig _ (Nat.mod_lt _ (by norm_num))

theorem encodeURIComponent_sep {q : String} {d : Char}
    (h : d ∈ (encodeURIComponent q).data) : d ≠ '?' ∧ d ≠ '&' ∧ d ≠ '=' := by
  simp only [encodeURIComponent, List.mem_flatMap] at h
  obtain ⟨c, -, hd⟩ := h
  exact encodeChar_sep hd

theorem url_glue_front (Z : List Char) :
    "http://localhost:8000".data ++ ("/search?query=".data ++ Z) =
      "http://localhost:8000/search".data ++ '?' :: ("query".data ++ '=' :: Z) := by
  rw [← List.append_assoc,
    show "http://localhost:8000".data ++ "/search?query=".data =
      "http://localhost:8000/search".data ++
        '?' :: ("query".data ++ ['=']) from by decide]
  simp [List.append_assoc]

theorem url_glue_mid (W : List Char) :
    "&max_results=".data ++ W = '&' :: ("max_results".data ++ '=' :: W) := by
  rw [show "&max_results=".data =
    '&' :: ("max_results".data ++ ['=']) from by decide]
  simp [List.append_assoc]

theorem urlParams_searchProductsUrl (q : String) (n : Nat) :
    urlParams (searchProductsUrl API_BASE_URL q n) =
      [("query", encodeURIComponent q), ("max_results", natToString n)] := by
  have hE : ∀ d ∈ (encodeURIComponent q).data, d ≠ '?' ∧ d ≠ '&' ∧ d ≠ '=' :=
    fun d hd => encodeURIComponent_sep hd
  have hD : ∀ d ∈ (natToString n).data, d ≠ '?' ∧ d ≠ '&' ∧ d ≠ '=' :=
    fun d hd => natDigitsAux_sep hd
  have hdata : (searchProductsUrl API_BASE_URL q n).data =
      "http://localhost:8000/search".data ++
        '?' :: (("query".data ++ '=' :: (encodeURIComponent q).data) ++
          '&' :: ("max_results".data ++ '=' :: (natToString n).data)) := by
    simp only [searchProductsUrl, API_BASE_URL, String.data_append,
      List.append_assoc]
    rw [url_glue_mid, url_glue_front]
    simp [List.append_assoc]
  have hq : '=' ∉ "query".data := by decide
  have hm : '=' ∉ "max_results".data := by decide
  have hrest : '?' ∉ ("query".data ++ '=' :: (encodeURIComponent q).data) ++
      '&' :: ("max_results".data ++ '=' :: (natToString n).data) := by
    intro hmem
    rcases List.mem_append.mp hmem with h' | h'
    · rcases List.mem_append.mp h' with h'' | h''
      · exact absurd h'' (by decide)
      · rcases List.mem_cons.mp h'' with h3 | h3
        · exact absurd h3 (by decide)
        · exact (hE _ h3).1 rfl
    · rcases List.mem_cons.mp h' with h'' | h''
      · exact absurd h'' (by decide)
      · rcases List.mem_append.mp h'' with h3 | h3
        · exact absurd h3 (by decide)
        · rcases List.mem_cons.mp h3 with h4 | h4
          · exact absurd h4 (by decide)
          · exact (hD _ h4).1 rfl
  have hleft : '&' ∉ "query".data ++ '=' :: (encodeURIComponent q).data := by
    intro hmem
    rcases List.mem_append.mp hmem with h' | h'
    · exact absurd h' (by decide)
    · rcases List.mem_cons.mp h' with h'' | h''
      · exact absurd h'' (by decide)
      · exact (hE _ h'').2.1 rfl
  have hright : '&' ∉ "max_results".data ++ '=' :: (natToString n).data := by
    intro hmem
    rcases List.mem_append.mp hmem with h' | h'
    · exact absurd h' (by decide)
    · rcases List.mem_cons.mp h' with h'' | h''
      · exact absurd h'' (by decide)
      · exact (hD _ h'').2.1 rfl
  have hEne : '=' ∉ (encodeURIComponent q).data :=
    fun hmem => (hE _ hmem).2.2 rfl
  have hDne : '=' ∉ (natToString n).data :=
    fun hmem => (hD _ hmem).2.2 rfl
  unfold urlParams
  rw [hdata, splitOnChar_append (by decide), splitOnChar_of_not_mem hrest]
  simp only [List.drop, List.headD]
  rw [splitOnChar_append hleft, splitOnChar_of_not_mem hright]
  simp only [List.map]
  rw [kvParse_eq hq hEne, kvParse_eq hm hDne]

/-- Claim C3 counterexample: the entry point does not have the specified
type — at the concrete invocation `searchProducts("iPhone", 20)` the request
carries exactly the parameters `query` and `max_results`, while a client of
the §6 signature supplying the `locale` and `includeOutOfStock` options
would transmit `locale` and `include_out_of_stock` parameters as well; no
such option exists in the code. -/
theorem c3_no_locale_or_stock_option :
    (urlParams (searchProductsUrl API_BASE_URL ("iPhone") 20)).map Prod.fst =
        ["query", "max_results"] ∧
      (specSearchParams ("iPhone")
        ⟨some ("en-GB"), some 20, some false⟩).map Prod.fst =
        ["query", "locale", "max_results", "include_out_of_stock"] ∧
      urlParams (searchProductsUrl API_BASE_URL ("iPhone") 20) ≠
        specSearchParams ("iPhone") ⟨some ("en-GB"), some 20, some false⟩ := by
  refine ⟨by decide, by decide, by decide⟩

/-- Claim C3 amended: the entry point `searchProducts` accepts a query
string plus a single optional `maxResults` (default 20) — no locale and no
includeOutOfStock option — and the request it issues carries exactly the
parameters `query` (the URL-encoded query) and `max_results`; the returned
`SearchResponse` consists of exactly the fields `query`, `results`,
`total_results`, `execution_time` and `channels_searched`. -/
theorem c3_entry_point_shape :
    (∀ (q : String) (n : Nat),
        urlParams (searchProductsUrl API_BASE_URL q n) =
          [("query", encodeURIComponent q), ("max_results", natToString n)]) ∧
      (∀ r : SearchResponse,
        r = SearchResponse.mk r.query r.results r.total_results
          r.execution_time r.channels_searched) :=
  ⟨urlParams_searchProductsUrl, fun r => by cases r; rfl⟩

namespace Normalizer

theorem mapStock_mem (s : String) :
    mapStock s = "in_stock" ∨ mapStock s = "out_of_stock" ∨
      mapStock s = "unknown" := by
  unfold mapStock
  split
  · exact Or.inl rfl
  · split
    · exact Or.inr (Or.inl rfl)
    · exact Or.inr (Or.inr rfl)

theorem mapStock_idem (s : String) : mapStock (mapStock s) = mapStock s := by
  rcases mapStock_mem s with h | h | h <;> rw [h] <;> decide

theorem conversionRate_nonneg {c : String} {x : Rat}
    (h : conversionRate c = some x) : 0 ≤ x := by
  unfold conversionRate at h
  split_ifs at h <;> (injection h with h'; subst h'; norm_num)

theorem conversionRate_usd : conversionRate ("USD") = some 1 := by decide

theorem normalizeRecord_some {r r' : ProductRecord}
    (h : normalizeRecord r = some r') :
    (∃ p, r'.price = some p ∧ 0 ≤ p) ∧
      (∃ c, r'.currency = some c ∧ c ∈ knownCurrencies) ∧
      (r'.stock = "in_stock" ∨ r'.stock = "out_of_stock" ∨
        r'.stock = "unknown") ∧
      normalizeRecord r' = some r' := by
  obtain ⟨rt, ti, u, pr, cu, st, fa, cf, im, de⟩ := r
  cases pr with
  | none => simp [normalizeRecord] at h
  | some p =>
    cases cu with
    | none => simp [normalizeRecord] at h
    | some c =>
      by_cases hcond : 0 ≤ p ∧ c ∈ knownCurrencies
      · cases hr : conversionRate c with
        | some rate =>
          simp only [normalizeRecord, if_pos hcond, hr,
            Option.some.injEq] at h
          subst h
          have hpr : 0 ≤ p * rate :=
            mul_nonneg hcond.1 (conversionRate_nonneg hr)
          refine ⟨⟨p * rate, rfl, hpr⟩, ⟨"USD", rfl, by decide⟩,
            mapStock_mem _, ?_⟩
          simp only [normalizeRecord, if_pos (And.intro hpr
            (show ("USD" : String) ∈ knownCurrencies by decide)),
            conversionRate_usd, Option.some.injEq]
          simp [mul_one, mapStock_idem]
        | none =>
          simp only [normalizeRecord, if_pos hcond, hr,
            Option.some.injEq] at h
          subst h
          refine ⟨⟨p, rfl, hcond.1⟩, ⟨c, rfl, hcond.2⟩, mapStock_mem _, ?_⟩
          simp only [normalizeRecord, if_pos hcond, hr, Option.some.injEq]
          simp [mapStock_idem]
      · simp only [normalizeRecord, if_neg hcond] at h
        exact Option.noConfusion h

theorem filterMap_self_of_fix {l : List ProductRecord}
    (h : ∀ x ∈ l, normalizeRecord x = some x) :
    l.filterMap normalizeRecord = l := by
  induction l with
  | nil => rfl
  | cons a t ih =>
    rw [List.filterMap_cons_some (h a (List.mem_cons_self a t)),
      ih (fun x hx => h x (List.mem_cons_of_mem _ hx))]

theorem better_eq_or (a b : ProductRecord) : better a b = a ∨ better a b = b := by
  unfold better
  split
  · exact Or.inr rfl
  · exact Or.inl rfl

theorem foldl_better_mem (h : ProductRecord) (t : List ProductRecord) :
    t.foldl better h ∈ h :: t := by
  induction t generalizing h with
  | nil => exact List.mem_singleton.mpr rfl
  | cons a t ih =>
    rw [List.foldl_cons]
    rcases List.mem_cons.mp (ih (better h a)) with h' | h'
    · rw [h']
      rcases better_eq_or h a with h'' | h'' <;> rw [h'']
      · exact List.mem_cons_self _ _
      · exact List.mem_cons_of_mem _ (List.mem_cons_self _ _)
    · exact List.mem_cons_of_mem _ (List.mem_cons_of_mem _ h')

theorem bestOf_mem {c : List ProductRecord} {x : ProductRecord}
    (h : bestOf c = some x) : x ∈ c := by
  cases c with
  | nil => cases h
  | cons a t =>
    injection h with h'
    exact h' ▸ foldl_better_mem a t

theorem dupMatch_comm (θ τ : Rat) (a b : ProductRecord) :
    dupMatch θ τ a b = dupMatch θ τ b a :=
  Bool.or_comm _ _

theorem mem_of_mem_addRecord {θ τ : Rat} {cs : List (List ProductRecord)}
    {r : ProductRecord} {c : List ProductRecord} {x : ProductRecord}
    (hc : c ∈ addRecord θ τ cs r) (hx : x ∈ c) :
    (∃ c' ∈ cs, x ∈ c') ∨ x = r := by
  unfold addRecord at hc
  by_cases he : (cs.filter (fun c => c.any (dupMatch θ τ r))).isEmpty
  · rw [if_pos he] at hc
    rcases List.mem_append.mp hc with h' | h'
    · exact Or.inl ⟨c, h', hx⟩
    · rw [List.mem_singleton] at h'
      subst h'
      rw [List.mem_singleton] at hx
      exact Or.inr hx
  · rw [if_neg he] at hc
    rcases List.mem_append.mp hc with h' | h'
    · exact Or.inl ⟨c, List.mem_of_mem_filter h', hx⟩
    · rw [List.mem_singleton] at h'
      subst h'
      rcases List.mem_cons.mp hx with h'' | h''
      · exact Or.inr h''
      · obtain ⟨c', hc', hxc⟩ := List.mem_flatten.mp h''
        exact Or.inl ⟨c', List.mem_of_mem_filter hc', hxc⟩

theorem mem_foldl_addRecord {θ τ : Rat} {l : List ProductRecord} :
    ∀ {cs : List (List ProductRecord)} {c : List ProductRecord}
      {x : ProductRecord},
      c ∈ l.foldl (addRecord θ τ) cs → x ∈ c →
        (∃ c' ∈ cs, x ∈ c') ∨ x ∈ l := by
  induction l with
  | nil =>
    intro cs c x hc hx
    exact Or.inl ⟨c, hc, hx⟩
  | cons a t ih =>
    intro cs c x hc hx
    rw [List.foldl_cons] at hc
    rcases ih hc hx with ⟨c', hc', hx'⟩ | h'
    · rcases mem_of_mem_addRecord hc' hx' with h | h
      · exact Or.inl h
      · exact Or.inr (h ▸ List.mem_cons_self a t)
    · exact Or.inr (List.mem_cons_of_mem _ h')

theorem mem_of_mem_dedupe {θ τ : Rat} {l : List ProductRecord}
    {x : ProductRecord} (h : x ∈ dedupe θ τ l) : x ∈ l := by
  unfold dedupe clusterize at h
  obtain ⟨c, hc, hx⟩ := List.mem_filterMap.mp h
  rcases mem_foldl_addRecord hc (bestOf_mem hx) with ⟨c', hc', -⟩ | h'
  · cases hc'
  · exact h'

theorem pairwise_addRecord {θ τ : Rat} {cs : List (List ProductRecord)}
    {r : ProductRecord}
    (h : cs.Pairwise
      (fun c c' => ∀ a ∈ c, ∀ b ∈ c', dupMatch θ τ a b = false)) :
    (addRecord θ τ cs r).Pairwise
      (fun c c' => ∀ a ∈ c, ∀ b ∈ c', dupMatch θ τ a b = false) := by
  have hsymm : Symmetric
      (fun c c' : List ProductRecord =>
        ∀ a ∈ c, ∀ b ∈ c', dupMatch θ τ a b = false) := by
    intro c c' hcc a ha b hb
    rw [dupMatch_comm]
    exact hcc b hb a ha
  unfold addRecord
  by_cases he : (cs.filter (fun c => c.any (dupMatch θ τ r))).isEmpty
  · rw [if_pos he]
    rw [List.pairwise_append]
    refine ⟨h, List.pairwise_singleton _ _, ?_⟩
    intro c hc b hb a ha x hx
    rw [List.mem_singleton] at hb
    subst hb
    rw [List.mem_singleton] at hx
    subst hx
    have hno := List.filter_eq_nil_iff.mp (List.isEmpty_iff.mp he) c hc
    rw [dupMatch_comm]
    by_contra hne
    rw [Bool.not_eq_false] at hne
    exact hno (List.any_eq_true.mpr ⟨a, ha, hne⟩)
  · rw [if_neg he]
    rw [List.pairwise_append]
    refine ⟨h.sublist (List.filter_sublist _), List.pairwise_singleton _ _, ?_⟩
    intro c hc b hb a ha x hx
    rw [List.mem_singleton] at hb
    subst hb
    have hcmem := List.mem_of_mem_filter hc
    have hcpred := (List.mem_filter.mp hc).2
    rcases List.mem_cons.mp hx with h' | h'
    · subst h'
      rw [dupMatch_comm]
      by_contra hne
      rw [Bool.not_eq_false] at hne
      have : c.any (dupMatch θ τ x) = true := List.any_eq_true.mpr ⟨a, ha, hne⟩
      rw [this] at hcpred
      exact Bool.noConfusion hcpred
    · obtain ⟨c', hc', hxc⟩ := List.mem_flatten.mp h'
      have hc'mem := List.mem_of_mem_filter hc'
      have hc'pred := (List.mem_filter.mp hc').2
      have hne : c ≠ c' := by
        intro e
        rw [e] at hcpred
        rw [hc'pred] at hcpred
        exact Bool.noConfusion hcpred
      exact (h.forall hsymm) hcmem hc'mem hne a ha x hxc

theorem pairwise_foldl_addRecord {θ τ : Rat} {l : List ProductRecord} :
    ∀ {cs : List (List ProductRecord)},
      cs.Pairwise
        (fun c c' => ∀ a ∈ c, ∀ b ∈ c', dupMatch θ τ a b = false) →
      (l.foldl (addRecord θ τ) cs).Pairwise
        (fun c c' => ∀ a ∈ c, ∀ b ∈ c', dupMatch θ τ a b = false) := by
  induction l with
  | nil => intro cs h; exact h
  | cons a t ih =>
    intro cs h
    rw [List.foldl_cons]
    exact ih (pairwise_addRecord h)

theorem pairwise_dedupe (θ τ : Rat) (l : List ProductRecord) :
    (dedupe θ τ l).Pairwise (fun a b => dupMatch θ τ a b = false) := by
  unfold dedupe clusterize
  rw [List.pairwise_filterMap]
  refine (pairwise_foldl_addRecord List.Pairwise.nil).imp ?_
  intro c c' hcc b hb b' hb'
  exact hcc b (bestOf_mem hb) b' (bestOf_mem hb')

theorem clusterize_of_pairwise {θ τ : Rat} {l : List ProductRecord}
    (h : l.Pairwise (fun a b => dupMatch θ τ a b = false)) :
    clusterize θ τ l = l.map (fun r => [r]) := by
  unfold clusterize
  suffices haux : ∀ (l' acc : List ProductRecord),
      (acc ++ l').Pairwise (fun a b => dupMatch θ τ a b = false) →
      l'.foldl (addRecord θ τ) (acc.map (fun r => [r])) =
        (acc ++ l').map (fun r => [r]) by
    simpa using haux l [] (by simpa using h)
  intro l'
  induction l' with
  | nil => intro acc hp; simp
  | cons a t ih =>
    intro acc hp
    rw [List.foldl_cons]
    have hfil : (acc.map (fun r => [r])).filter
        (fun c => c.any (dupMatch θ τ a)) = [] := by
      rw [List.filter_eq_nil_iff]
      intro c hc
      obtain ⟨x, hx, rfl⟩ := List.mem_map.mp hc
      simp only [List.any_cons, List.any_nil, Bool.or_false]
      have hxa : dupMatch θ τ x a = false :=
        (List.pairwise_append.mp hp).2.2 x hx a (List.mem_cons_self a t)
      rw [dupMatch_comm] at hxa
      simp [hxa]
    have hstep : addRecord θ τ (acc.map (fun r => [r])) a =
        ((acc ++ [a]).map (fun r => [r])) := by
      unfold addRecord
      rw [if_pos (by rw [hfil]; rfl)]
      simp
    rw [hstep]
    have hp' : ((acc ++ [a]) ++ t).Pairwise
        (fun a b => dupMatch θ τ a b = false) := by
      rw [List.append_assoc, List.singleton_append]
      exact hp
    rw [ih (acc ++ [a]) hp']
    simp

theorem dedupe_of_pairwise {θ τ : Rat} {l : List ProductRecord}
    (h : l.Pairwise (fun a b => dupMatch θ τ a b = false)) :
    dedupe θ τ l = l := by
  unfold dedupe
  rw [clusterize_of_pairwise h, List.filterMap_map]
  exact List.filterMap_some l

theorem mem_process {θ τ : Rat} {k : Nat} {l : List ProductRecord}
    {x : ProductRecord} (h : x ∈ process θ τ k l) :
    x ∈ l.filterMap normalizeRecord := by
  unfold process at h
  exact mem_of_mem_dedupe
    ((List.mem_insertionSort rankLe).mp (List.mem_of_mem_take h))

theorem fix_process {θ τ : Rat} {k : Nat} {l : List ProductRecord} :
    ∀ x ∈ process θ τ k l, normalizeRecord x = some x := by
  intro x hx
  obtain ⟨y, -, hy⟩ := List.mem_filterMap.mp (mem_process hx)
  rcases normalizeRecord_some hy with ⟨-, -, -, hfix⟩
  exact hfix

theorem pairwise_process (θ τ : Rat) (k : Nat) (l : List ProductRecord) :
    (process θ τ k l).Pairwise (fun a b => dupMatch θ τ a b = false) := by
  unfold process
  have hsymm : ∀ {a b : ProductRecord},
      dupMatch θ τ a b = false → dupMatch θ τ b a = false := by
    intro a b hab
    rw [dupMatch_comm]
    exact hab
  have hS : ((dedupe θ τ (l.filterMap normalizeRecord)).insertionSort
      rankLe).Pairwise (fun a b => dupMatch θ τ a b = false) :=
    ((List.perm_insertionSort rankLe _).pairwise_iff hsymm).mpr
      (pairwise_dedupe θ τ _)
  exact hS.sublist (List.take_sublist _ _)

theorem sorted_process (θ τ : Rat) (k : Nat) (l : List ProductRecord) :
    (process θ τ k l).Sorted rankLe := by
  unfold process
  exact (List.sorted_insertionSort rankLe _).sublist (List.take_sublist _ _)

theorem length_process_le (θ τ : Rat) (k : Nat) (l : List ProductRecord) :
    (process θ τ k l).length ≤ k := by
  unfold process
  exact List.length_take_le _ _

end Normalizer

/-- Claim C7: deduplication in the Normalizer/Ranker is idempotent — for
every list of raw product records, running the modelled `process` operation
on its own output reproduces that output exactly: the same representative
set in the same order (for every similarity threshold, price tolerance and
result cap). -/
theorem c7_process_idempotent (θ τ : Rat) (k : Nat)
    (l : List Normalizer.ProductRecord) :
    Normalizer.process θ τ k (Normalizer.process θ τ k l) =
      Normalizer.process θ τ k l := by
  have hunfold : Normalizer.process θ τ k (Normalizer.process θ τ k l) =
      ((((Normalizer.process θ τ k l).filterMap Normalizer.normalizeRecord)
        |> Normalizer.dedupe θ τ).insertionSort Normalizer.rankLe).take k := rfl
  rw [hunfold,
    Normalizer.filterMap_self_of_fix Normalizer.fix_process,
    Normalizer.dedupe_of_pairwise (Normalizer.pairwise_process θ τ k l),
    List.Sorted.insertionSort_eq (Normalizer.sorted_process θ τ k l),
    List.take_of_length_le (Normalizer.length_process_le θ τ k l)]

/-- Claim C4: every record present in the output of the modelled
Normalizer/Ranker satisfies the output invariant — `price` and `currency`
are present (never absent), the price is a nonnegative decimal, the
currency is one of the recognised ISO-4217 codes, and the stock status is
one of `in_stock`, `out_of_stock`, `unknown`; a record that cannot satisfy
this is dropped during normalisation and never present. -/
theorem c4_result_invariant (θ τ : Rat) (k : Nat)
    (l : List Normalizer.ProductRecord) (r : Normalizer.ProductRecord)
    (h : r ∈ Normalizer.process θ τ k l) :
    (∃ p, r.price = some p ∧ 0 ≤ p) ∧
      (∃ c, r.currency = some c ∧ c ∈ Normalizer.knownCurrencies) ∧
      (r.stock = "in_stock" ∨ r.stock = "out_of_stock" ∨
        r.stock = "unknown") := by
  obtain ⟨y, -, hy⟩ := List.mem_filterMap.mp (Normalizer.mem_process h)
  rcases Normalizer.normalizeRecord_some hy with ⟨h1, h2, h3, -⟩
  exact ⟨h1, h2, h3⟩

/-- Witness for C4: the §8 BestBuy record, processed on its own, appears in
the output and satisfies the invariant. -/
theorem c4_result_invariant_witness :
    (∃ p, Normalizer.sampleOut.price = some p ∧ 0 ≤ p) ∧
      (∃ c, Normalizer.sampleOut.currency = some c ∧
        c ∈ Normalizer.knownCurrencies) ∧
      (Normalizer.sampleOut.stock = "in_stock" ∨
        Normalizer.sampleOut.stock = "out_of_stock" ∨
        Normalizer.sampleOut.stock = "unknown") :=
  c4_result_invariant 1 0 5
    [Normalizer.sampleRaw] Normalizer.sampleOut (by decide)

end PricePilot
